import Mathlib

/-!
Shallow embedding of the log-harvesting agent in `filewatch.go`
(repository ChangSZ/filewatch).

Conventions of the embedding:
* file contents and byte buffers are `List Char` (the source reads text
  line by line; one `Char` stands for one byte);
* byte offsets are `Nat` (the Go code uses non-negative `int64` offsets:
  results of `File.Seek` on regular files);
* the external effects of a `Watch` task (records sent on `ResChan`,
  offsets written by `saveCursor`, `os.Remove` calls) are accumulated
  explicitly inside `WatchState`;
* `bufio.Scanner` is modelled including its read-ahead buffering: the
  scanner reads chunks of up to `CHUNK = 4096` bytes (Go's
  `bufio.startBufSize`) from the underlying file, so the underlying file
  position (`f.Seek(0, io.SeekCurrent)`) generally runs past the end of
  the last returned line.  The model is exact for files whose lines are
  shorter than `CHUNK`; a line that does not fit is modelled as ending
  the scan (the real scanner grows its buffer up to 64 KiB first).
-/

namespace Filewatch

/-- Record sent on `ResChan` (struct `FileContent` in `filewatch.go`). -/
structure FileContent where
  filePath : String
  content : List Char
  eof : Bool
deriving DecidableEq

/-- Configuration fields of struct `FileWatcher` in `filewatch.go`.
The channel and the `maxNoUpdateTime` duration are not data here: timer
expiry and channel traffic are modelled as explicit events below. -/
structure FileWatcher where
  dirPath : String
  fileRegexp : String
  completeMarker : String
  watching : Int
  removeAfterComplete : Bool
deriving DecidableEq

/-- Go constant `CursorFileSuffix = ".cursor"`. -/
def CursorFileSuffix : String := ".cursor"

/-- Go `strings.HasSuffix`. -/
def hasSuffix (s suffix : String) : Bool := List.isSuffixOf suffix.data s.data

/-- `NewWatcher()` with its default configuration (dir `./logs`, pattern
`.+.log`, marker `LOG_COMPLETE`, `removeAfterComplete = false`,
`watching = 0`). -/
def NewWatcher : FileWatcher :=
  { dirPath := "./logs"
    fileRegexp := ".+.log"
    completeMarker := "LOG_COMPLETE"
    watching := 0
    removeAfterComplete := false }

/-! ### CursorStore: `readCursor` / `saveCursor` -/

/-- Decimal parse of a cursor file, as `strconv.ParseInt(string(data), 10, 64)`
restricted to the unsigned numerals that `saveCursor` itself writes
(`ParseInt` additionally accepts a sign, which never occurs in a cursor
file: offsets returned by `Seek` are non-negative). A malformed or empty
file is a parse error. -/
def parseDecimal (s : List Char) : Option Nat :=
  if s ≠ [] ∧ s.all Char.isDigit then
    some (s.foldl (fun acc c => acc * 10 + (c.toNat - 48)) 0)
  else none

/-- `readCursor`: a missing cursor file (`os.ReadFile` error, `none` here)
or a parse error yields offset 0 — `Watch` discards the error
(`offset, _ := readCursor(cursorFile)`). -/
def readCursor (cursorData : Option (List Char)) : Nat :=
  match cursorData with
  | none => 0
  | some s => (parseDecimal s).getD 0

/-- Decimal representation written by `saveCursor`
(`fmt.Sprintf("%d", offset)`). -/
def decimalRepr (offset : Nat) : List Char := (toString offset).data

/-- `saveCursor(f, offset)`: the cursor file is opened with
`O_WRONLY|O_CREATE` (no `O_TRUNC`), and `saveCursor` does
`f.Seek(0, io.SeekStart)` followed by `f.WriteString(fmt.Sprintf("%d", offset))`.
The write therefore overwrites a prefix of the existing content and keeps
any stale bytes beyond the written numeral. `prior` is the cursor file's
content before the call; the result is its content after. -/
def saveCursor (prior : List Char) (offset : Nat) : List Char :=
  decimalRepr offset ++ prior.drop (decimalRepr offset).length

/-! ### The `bufio.Scanner` model

`Watch` wraps its `*os.File` directly in `bufio.NewScanner(f)`. `Scan`
reads ahead in chunks (initial buffer size 4096), splits on `'\n'`, and
strips a final `'\r'` (`bufio.ScanLines` / `dropCR`); at EOF a final
non-terminated token is still returned. The pair `(consumed, filePos)`
tracks the scanner: `consumed` is the index just past the last returned
token (including its terminator), `filePos` the underlying file offset —
exactly what `f.Seek(0, io.SeekCurrent)` reports after buffered reads. -/

/-- Initial buffer size of `bufio.Scanner` (`startBufSize = 4096`). -/
def CHUNK : Nat := 4096

/-- The bytes of `file` in index range `[i, j)`. -/
def seg (file : List Char) (i j : Nat) : List Char := (file.take j).drop i

/-- Index of the first `'\n'` in `file` at position `≥ i`, looking at
`d` positions (the buffered window). -/
def firstNLAux (file : List Char) : Nat → Nat → Option Nat
  | _, 0 => none
  | i, d + 1 => if file.getD i ' ' = '\n' then some i else firstNLAux file (i + 1) d

/-- Index of the first `'\n'` in `file` inside `[i, j)`. -/
def firstNL (file : List Char) (i j : Nat) : Option Nat := firstNLAux file i (j - i)

/-- `dropCR` of `bufio.ScanLines`: strip one trailing carriage return. -/
def dropCR (l : List Char) : List Char :=
  if l.getLast? = some '\r' then l.dropLast else l

/-- One `scanner.Scan()` step. Given the scanner position `(consumed, filePos)`
it returns `some (line, consumed', filePos')` with the token produced by
`scanner.Bytes()` (newline stripped, `dropCR` applied), or `none` when the
scan loop ends. A refill models `Read` into the compacted 4096-byte buffer:
it advances the underlying offset to `min file.length (consumed + CHUNK)`.
A newline-free span of `CHUNK` bytes before EOF stops the model (the real
scanner would first grow its buffer; no theorem below relies on such input). -/
def scanStep (file : List Char) (consumed filePos : Nat) :
    Option (List Char × Nat × Nat) :=
  match firstNL file consumed filePos with
  | some j => some (dropCR (seg file consumed j), j + 1, filePos)
  | none =>
    let np := min file.length (consumed + CHUNK)
    if filePos < np then
      match firstNL file consumed np with
      | some j => some (dropCR (seg file consumed j), j + 1, np)
      | none =>
        if np = file.length ∧ consumed < np then
          some (dropCR (seg file consumed np), np, np)
        else none
    else
      if filePos = file.length ∧ consumed < filePos then
        some (dropCR (seg file consumed filePos), filePos, filePos)
      else none

/-! ### The `Watch` loop state machine -/

/-- `maxBatchCnt = 1000` in `Watch`. -/
def maxBatchCnt : Nat := 1000

/-- State of one `Watch(filePath)` task. `consumed`/`filePos` are the
scanner model; `offset` is the local variable `offset` of `Watch`;
`batchLog`/`batchCnt` the pending batch; `sent` the records handed to
`ResChan` so far (in order); `saves` the offsets passed to `saveCursor`
(in order); `removedFile`/`removedCursor` record the `os.Remove` calls of
the completion branch; `done` is set when `Watch` returns from inside the
scan loop. -/
structure WatchState where
  consumed : Nat
  filePos : Nat
  offset : Nat
  batchCnt : Nat
  batchLog : List Char
  sent : List FileContent
  saves : List Nat
  removedFile : Bool
  removedCursor : Bool
  done : Bool
deriving DecidableEq

/-- State right after `Watch` opened the file, read the cursor and did
`f.Seek(k, io.SeekStart)`: scanner and offset all sit at `k`. -/
def initState (k : Nat) : WatchState :=
  { consumed := k, filePos := k, offset := k, batchCnt := 0, batchLog := []
    sent := [], saves := [], removedFile := false, removedCursor := false
    done := false }

/-- Body of `for scanner.Scan() { ... }` in `Watch` for one scanned line,
with `st.consumed`/`st.filePos` already advanced by `scanStep`. The source
does: `batchCnt++`; `offset, _ = f.Seek(0, io.SeekCurrent)`;
`eof := string(line) == w.completeMarker`; append `line` plus `'\n'` to
`batchLog`; if `eof || batchCnt >= maxBatchCnt` send the batch on
`ResChan`, reset it and `saveCursor(cursorFW, offset)`; if `eof`,
`os.Remove` the log file and the cursor file and return. The three
disjoint outcomes are written out flat here. -/
def processLine (w : FileWatcher) (filePath : String) (st : WatchState)
    (line : List Char) : WatchState :=
  if line = w.completeMarker.data then
    { st with sent := st.sent ++ [⟨filePath, st.batchLog ++ line ++ ['\n'], true⟩]
              batchLog := [], batchCnt := 0, offset := st.filePos
              saves := st.saves ++ [st.filePos]
              removedFile := true, removedCursor := true, done := true }
  else if st.batchCnt + 1 ≥ maxBatchCnt then
    { st with sent := st.sent ++ [⟨filePath, st.batchLog ++ line ++ ['\n'], false⟩]
              batchLog := [], batchCnt := 0, offset := st.filePos
              saves := st.saves ++ [st.filePos] }
  else
    { st with batchLog := st.batchLog ++ line ++ ['\n']
              batchCnt := st.batchCnt + 1, offset := st.filePos }

/-- The whole `for scanner.Scan()` burst triggered by one `scanChan`
signal: scan lines until `Scan()` reports false or the completion branch
returned. `fuel ≥ file.length + 1` always suffices, since every scanned
line consumes at least one byte. -/
def scanBurst (w : FileWatcher) (filePath : String) (file : List Char) :
    Nat → WatchState → WatchState
  | 0, st => st
  | fuel + 1, st =>
    if st.done = true then st
    else
      match scanStep file st.consumed st.filePos with
      | none => st
      | some (line, c, p) =>
        scanBurst w filePath file fuel
          (processLine w filePath { st with consumed := c, filePos := p } line)

/-- The `case <-sendTimer.C` branch of `Watch`: if the pending batch is
non-empty, send it with `EOF: false`, reset it and `saveCursor(_, offset)`;
then return (second component `true`) iff `longTimeNoUpdate` was set at
startup. -/
def sendTick (w : FileWatcher) (filePath : String) (longTimeNoUpdate : Bool)
    (st : WatchState) : WatchState × Bool :=
  let st1 :=
    if st.batchLog.length > 0 then
      { st with sent := st.sent ++ [⟨filePath, st.batchLog, false⟩]
                batchLog := [], batchCnt := 0, saves := st.saves ++ [st.offset] }
    else st
  (st1, longTimeNoUpdate)

/-- The `case ifScan := <-scanChan` branch of `Watch`: on `false` the task
returns `nil` at once (`if !ifScan { return nil }`) — no flush, no save;
on `true` it runs a scan burst. The second component is `true` when
`Watch` returned. -/
def scanSignal (w : FileWatcher) (filePath : String) (file : List Char)
    (fuel : Nat) (ifScan : Bool) (st : WatchState) : WatchState × Bool :=
  if ifScan = false then (st, true)
  else
    let st1 := scanBurst w filePath file fuel st
    (st1, st1.done)

/-- A fresh `Watch` run over a file that is not being appended to
concurrently: the synthesized initial write event triggers one full scan
burst from the resumed offset `k`; if the task did not complete, the next
`sendTimer` tick flushes whatever the burst left pending. -/
def harvestOnce (w : FileWatcher) (filePath : String) (file : List Char)
    (k : Nat) : WatchState :=
  let st := scanBurst w filePath file (file.length + 1) (initState k)
  if st.done = true then st else (sendTick w filePath false st).1

/-- Concatenation of the `Content` fields of a list of records. -/
def concatContents (l : List FileContent) : List Char :=
  l.foldr (fun r acc => r.content ++ acc) []

/-- All bytes a `Watch` task has handed to `ResChan`, in order. -/
def deliveredContent (st : WatchState) : List Char := concatContents st.sent

/-! ### `watchFileEvent`: the per-file event/timer goroutine -/

/-- Actions of `watchFileEvent(filePath, scanChan)`: sends on `scanChan`,
`timer.Reset(w.maxNoUpdateTime)`, and returning from the goroutine. -/
inductive FEAction where
  | sendScan (b : Bool)
  | resetTimer
  | terminate
deriving DecidableEq

/-- One `fsnotify` event with the `Op` bits `Watch`'s helpers look at. -/
structure FsEvent where
  name : String
  isCreate : Bool
  isWrite : Bool
  isRemove : Bool
deriving DecidableEq

/-- Handling of one event in `watchFileEvent`'s loop: on a Write bit,
send `true` on `scanChan` if it has room (`len(scanChan) <= 1`) and reset
the no-update timer; on a Remove bit, send `false` and return. -/
def watchFileEventStep (ev : FsEvent) (chanLen : Nat) : List FEAction :=
  (if ev.isWrite then
      (if chanLen ≤ 1 then [FEAction.sendScan true] else []) ++ [FEAction.resetTimer]
   else []) ++
  (if ev.isRemove then [FEAction.sendScan false, FEAction.terminate] else [])

/-- The `case <-timer.C` branch of `watchFileEvent` (stall timeout with no
intervening write): send `false` on `scanChan` and return. -/
def watchFileEventTimerFire : List FEAction :=
  [FEAction.sendScan false, FEAction.terminate]

/-! ### `Scan` and `Start`: the directory monitor -/

/-- One entry met by `filepath.Walk`. -/
structure FileInfo where
  path : String
  isDir : Bool
  isSymlink : Bool
deriving DecidableEq

/-- The paths for which one call of `Scan()` spawns `go w.Watch(path)`:
the walk skips `.cursor` paths, directories and symbolic links, and spawns
for every remaining path on which the compiled `fileRegexp` matches
(`re` stands for `len(re.FindStringSubmatch(path)) > 0`). `Scan` consults
no other state: it has no idempotence guard and no set of active tasks. -/
def scanSpawns (re : String → Bool) (entries : List FileInfo) : List String :=
  entries.filterMap fun e =>
    if hasSuffix e.path CursorFileSuffix then none
    else if e.isDir || e.isSymlink then none
    else if re e.path then some e.path else none

/-- Process-level view used for `Scan`: the single-flight flag and the
multiset (list) of file paths with a spawned, still-active `Watch` task. -/
structure MonitorState where
  watching : Int
  activeTasks : List String
deriving DecidableEq

/-- Effect of one `Scan()` call on the process state: every spawned path
becomes one more active `Watch` task; nothing is read or filtered against
`activeTasks`, and `watching` is not consulted. -/
def runScan (re : String → Bool) (entries : List FileInfo)
    (s : MonitorState) : MonitorState :=
  { s with activeTasks := s.activeTasks ++ scanSpawns re entries }

/-- Effects of `Start`'s event loop on one `watcher.Events` event. -/
inductive StartEffect where
  | removeWatch (p : String)
  | addWatch (p : String)
  | spawnWatch (p : String)
deriving DecidableEq

/-- Handling of one event in `Start`'s loop: a `.cursor` path is
unsubscribed and skipped before anything else; only Create events are
examined further; `isDirRes` is the result of `isDirectory(event.Name)`
(`none` = stat error, skipped); a directory is added to the watcher; a
file is matched against the pattern — non-matching files are
unsubscribed, matching files get `go w.Watch(filePath)`. -/
def startHandleEvent (re : String → Bool) (ev : FsEvent)
    (isDirRes : Option Bool) : List StartEffect :=
  if hasSuffix ev.name CursorFileSuffix then [StartEffect.removeWatch ev.name]
  else if ev.isCreate then
    match isDirRes with
    | none => []
    | some true => [StartEffect.addWatch ev.name]
    | some false =>
      if re ev.name then [StartEffect.spawnWatch ev.name]
      else [StartEffect.removeWatch ev.name]
  else []

/-- Steps of `Start()` up to its event loop. -/
inductive StartStep where
  | launchScan
  | addWatches
  | eventLoop
deriving DecidableEq

/-- Prefix of actions of one `Start()` call. The CAS
`atomic.CompareAndSwapInt64(&w.watching, 0, 1)` wins iff `watching = 0`;
a loser returns at once having done nothing. A winner first does
`go w.Scan()`, then creates the fsnotify watcher (`newWatcherOk`), adds
the root and walks existing subdirectories (`addWalkOk`), and only then
enters the event loop. -/
def startTrace (watching : Int) (newWatcherOk addWalkOk : Bool) :
    List StartStep :=
  if watching ≠ 0 then []
  else
    [StartStep.launchScan] ++
      (if newWatcherOk then
        if addWalkOk then [StartStep.addWatches, StartStep.eventLoop]
        else [StartStep.addWatches]
       else [])

/-! ### `bytes.Buffer` aliasing model (for the flushed records)

`Watch` sends `batchLog.Bytes()` on `ResChan` and then calls
`batchLog.Reset()`. `Bytes()` returns a slice header into the buffer's
backing array; `Reset` keeps that array for future writes, and `Watch`
pre-allocates 1 MiB of capacity, so the next batch is written into the
same array the already-sent record points at. The model keeps the backing
array contents (`arr`) and the logical length (`len`); a sent record is a
slice header, i.e. a length to be read against whatever the array holds
when the consumer looks. -/

structure GoBuffer where
  arr : List Char
  len : Nat
deriving DecidableEq

/-- `Buffer.Write`: writes at the logical end, overwriting the retained
array (capacity is ample: 1 MiB pre-allocated, our batches are smaller). -/
def bufWrite (b : GoBuffer) (s : List Char) : GoBuffer :=
  { arr := b.arr.take b.len ++ s ++ b.arr.drop (b.len + s.length)
    len := b.len + s.length }

/-- `Buffer.Reset`: logical length 0, backing array retained. -/
def bufReset (b : GoBuffer) : GoBuffer := { b with len := 0 }

/-- `Buffer.Bytes()`: a slice header — here just its length, the start is
always index 0 (the buffer is never read from, so `off = 0`). -/
def bufView (b : GoBuffer) : Nat := b.len

/-- What a consumer holding the slice header reads once the backing array
holds `arr`. -/
def readSlice (arr : List Char) (len : Nat) : List Char := arr.take len

/-- First flushed batch of the aliasing scenario. -/
def batchOne : List Char := ('a' :: 'a' :: 'a' :: 'a' :: '\n' :: [])

/-- Second flushed batch of the aliasing scenario. -/
def batchTwo : List Char := ('b' :: 'b' :: '\n' :: [])

/-- Buffer state at the first flush: `batchLog` holds the first batch. -/
def flushOneBuf : GoBuffer := bufWrite ⟨[], 0⟩ batchOne

/-- Slice header sent on `ResChan` at the first flush. -/
def recordOneLen : Nat := bufView flushOneBuf

/-- Buffer state after `Reset()` and the writes of the second batch. -/
def flushTwoBuf : GoBuffer := bufWrite (bufReset flushOneBuf) batchTwo

/-! ### Example inputs used by the concrete theorems below -/

/-- A harvested file path used in concrete runs. -/
def aLogPath : String := "logs/a.log"

/-- File whose first line is the default completion marker and that holds
one further byte plus newline after it: `"LOG_COMPLETE\nZ\n"` (15 bytes;
the marker line ends at byte 13). -/
def markerThenMore : List Char := "LOG_COMPLETE\nZ\n".data

/-- File holding exactly the default completion marker line. -/
def markerOnly : List Char := "LOG_COMPLETE\n".data

/-- The default completion marker as a scanned line. -/
def markerLine : List Char := "LOG_COMPLETE".data

/-- Two-line file `"a\nb\n"` used for the resume witness. -/
def twoLineFile : List Char := "a\nb\n".data

/-- Directory listing with the root directory and one matching log file. -/
def exampleEntries : List FileInfo :=
  [⟨"logs", true, false⟩, ⟨"logs/a.log", false, false⟩]

/-- A concrete instantiation of the compiled pattern matcher: the default
`.+.log` expression matches (unanchored) every path that ends in `.log`,
which is all this instantiation is used for. -/
def exampleMatch : String → Bool := fun s => hasSuffix s ".log"

/-- A `Watch` state with one scanned line pending in the batch buffer and
nothing sent yet. -/
def pendingBatchState : WatchState :=
  { initState 0 with batchLog := "x\n".data, batchCnt := 1 }

/-- Invariant carried through a scan burst that starts at offset `k`:
the scanner window is inside the file, the task has not completed, and
everything handed to `ResChan` plus the pending batch is exactly the
bytes of the file from `k` up to the scanner's consumed position. -/
structure BurstInv (file : List Char) (k : Nat) (st : WatchState) : Prop where
  hk : k ≤ st.consumed
  hcn : st.consumed ≤ file.length
  hcf : st.consumed ≤ st.filePos
  hfn : st.filePos ≤ file.length
  hdone : st.done = false
  hdel : concatContents st.sent ++ st.batchLog = seg file k st.consumed

/-! ## Helper lemmas -/

theorem firstNLAux_none_of (file : List Char) :
    ∀ (d i : Nat), (∀ t, i ≤ t → t < i + d → file.getD t ' ' ≠ '\n') →
      firstNLAux file i d = none := by
  intro d
  induction d with
  | zero => intro i _; rfl
  | succ d ih =>
    intro i h
    simp only [firstNLAux]
    rw [if_neg (h i le_rfl (by omega))]
    exact ih (i + 1) (fun t ht1 ht2 => h t (by omega) (by omega))

theorem firstNLAux_some_of (file : List Char) :
    ∀ (d i m : Nat), i ≤ m → m < i + d → file.getD m ' ' = '\n' →
      (∀ t, i ≤ t → t < m → file.getD t ' ' ≠ '\n') →
      firstNLAux file i d = some m := by
  intro d
  induction d with
  | zero => intro i m h1 h2 _ _; omega
  | succ d ih =>
    intro i m h1 h2 hm hmin
    by_cases hi : i = m
    · subst hi
      simp only [firstNLAux]
      rw [if_pos hm]
    · have hlt : i < m := by omega
      simp only [firstNLAux]
      rw [if_neg (hmin i le_rfl hlt)]
      exact ih (i + 1) m (by omega) (by omega) hm (fun t ht1 ht2 => hmin t (by omega) ht2)

theorem seg_nil (file : List Char) (k : Nat) : seg file k k = [] := by
  apply List.drop_eq_nil_of_le
  rw [List.length_take]
  exact min_le_left _ _

theorem seg_snoc (file : List Char) (c j : Nat) (hc : c ≤ j) (hj : j < file.length) :
    seg file c j ++ [file.getD j ' '] = seg file c (j + 1) := by
  have h1 : file[j]? = some (file.get ⟨j, hj⟩) := by
    rw [List.getElem?_eq_getElem hj]
    rfl
  have h2 : file.getD j ' ' = file.get ⟨j, hj⟩ := by
    rw [List.getD_eq_getElem?_getD, h1]
    rfl
  unfold seg
  rw [List.take_succ, h1]
  rw [List.drop_append_of_le_length (by rw [List.length_take]; omega)]
  rw [h2]
  rfl

theorem seg_glue (file : List Char) (k c c2 : Nat) (h1 : k ≤ c) (h2 : c ≤ c2)
    (h3 : c ≤ file.length) :
    seg file k c ++ seg file c c2 = seg file k c2 := by
  unfold seg
  have htake : List.take c (List.take c2 file) = List.take c file := by
    rw [List.take_take]
    congr 1
    omega
  have hsplit : List.take c2 file = List.take c file ++ List.drop c (List.take c2 file) := by
    conv_lhs => rw [← List.take_append_drop c (List.take c2 file)]
    rw [htake]
  conv_rhs => rw [hsplit]
  rw [List.drop_append_of_le_length (by rw [List.length_take]; omega)]

theorem mem_of_mem_seg {file : List Char} {i j : Nat} {a : Char}
    (h : a ∈ seg file i j) : a ∈ file :=
  List.take_subset j file (List.drop_subset i _ h)

theorem dropCR_of_not_mem (l : List Char) (h : '\r' ∉ l) : dropCR l = l := by
  unfold dropCR
  split
  · next hcr =>
    obtain ⟨ys, hys⟩ := List.getLast?_eq_some_iff.mp hcr
    exact absurd (by rw [hys]; exact List.mem_append_right ys (by simp)) h
  · rfl

theorem concatContents_cons (r : FileContent) (l : List FileContent) :
    concatContents (r :: l) = r.content ++ concatContents l := rfl

theorem concatContents_append (a b : List FileContent) :
    concatContents (a ++ b) = concatContents a ++ concatContents b := by
  induction a with
  | nil => rfl
  | cons x xs ih =>
    simp only [List.cons_append, concatContents_cons, ih, List.append_assoc]

theorem concatContents_singleton (r : FileContent) :
    concatContents [r] = r.content := by
  simp [concatContents]

theorem processLine_delivered (w : FileWatcher) (fp : String) (st : WatchState)
    (line : List Char) :
    concatContents (processLine w fp st line).sent ++ (processLine w fp st line).batchLog
      = concatContents st.sent ++ st.batchLog ++ line ++ ['\n'] := by
  unfold processLine
  split_ifs <;>
    simp [concatContents_append, concatContents_singleton, List.append_assoc]

theorem processLine_done_of_ne (w : FileWatcher) (fp : String) (st : WatchState)
    (line : List Char) (h : line ≠ w.completeMarker.data) :
    (processLine w fp st line).done = st.done := by
  unfold processLine
  rw [if_neg h]
  split_ifs <;> rfl

theorem processLine_consumed (w : FileWatcher) (fp : String) (st : WatchState)
    (line : List Char) : (processLine w fp st line).consumed = st.consumed := by
  unfold processLine
  split_ifs <;> rfl

theorem processLine_filePos (w : FileWatcher) (fp : String) (st : WatchState)
    (line : List Char) : (processLine w fp st line).filePos = st.filePos := by
  unfold processLine
  split_ifs <;> rfl

theorem scanStep_at_end (file : List Char) (c : Nat) (hc : c = file.length) :
    scanStep file c c = none := by
  subst hc
  have h0 : firstNL file file.length file.length = none := by
    unfold firstNL
    rw [Nat.sub_self]
    rfl
  unfold scanStep
  rw [h0]
  dsimp only
  rw [Nat.min_eq_left (Nat.le_add_right _ _)]
  rw [if_neg (lt_irrefl _)]
  rw [if_neg (fun hcon => lt_irrefl _ hcon.2)]

theorem scanStep_finds (file : List Char) (consumed filePos m : Nat)
    (hm : file.getD m ' ' = '\n') (hcm : consumed ≤ m) (hmn : m < file.length)
    (hmC : m < consumed + CHUNK) (hcf : consumed ≤ filePos) (hfn : filePos ≤ file.length)
    (hmin : ∀ t, consumed ≤ t → t < m → file.getD t ' ' ≠ '\n') :
    ∃ p, scanStep file consumed filePos = some (dropCR (seg file consumed m), m + 1, p)
      ∧ m < p ∧ p ≤ file.length := by
  by_cases hcase : m < filePos
  · have h1 : firstNL file consumed filePos = some m := by
      unfold firstNL
      exact firstNLAux_some_of file (filePos - consumed) consumed m hcm (by omega) hm hmin
    refine ⟨filePos, ?_, hcase, hfn⟩
    unfold scanStep
    rw [h1]
  · have h1 : firstNL file consumed filePos = none := by
      unfold firstNL
      exact firstNLAux_none_of file (filePos - consumed) consumed
        (fun t ht1 ht2 => hmin t ht1 (by omega))
    have hnp : m < min file.length (consumed + CHUNK) := by
      rw [Nat.lt_min]
      exact ⟨hmn, hmC⟩
    have h2 : firstNL file consumed (min file.length (consumed + CHUNK)) = some m := by
      unfold firstNL
      exact firstNLAux_some_of file _ consumed m hcm (by omega) hm hmin
    refine ⟨min file.length (consumed + CHUNK), ?_, hnp, Nat.min_le_left _ _⟩
    unfold scanStep
    rw [h1]
    dsimp only
    rw [if_pos (by omega : filePos < min file.length (consumed + CHUNK))]
    rw [h2]

theorem scanBurst_succ_active (w : FileWatcher) (fp : String) (file : List Char)
    (fuel : Nat) (st : WatchState) (hd : st.done = false) :
    scanBurst w fp file (fuel + 1) st =
      match scanStep file st.consumed st.filePos with
      | none => st
      | some (line, c, p) =>
          scanBurst w fp file fuel
            (processLine w fp { st with consumed := c, filePos := p } line) := by
  conv_lhs => simp only [scanBurst]
  rw [hd]
  rw [if_neg Bool.false_ne_true]

theorem scanBurst_done (w : FileWatcher) (fp : String) (file : List Char)
    (fuel : Nat) (st : WatchState) (h : st.done = true) :
    scanBurst w fp file fuel st = st := by
  cases fuel with
  | zero => rfl
  | succ fuel =>
    unfold scanBurst
    rw [h]
    rw [if_pos rfl]

theorem sendTick_sent (w : FileWatcher) (fp : String) (b : Bool) (st : WatchState) :
    concatContents ((sendTick w fp b st).1).sent
      = concatContents st.sent ++ st.batchLog := by
  unfold sendTick
  dsimp only
  split_ifs with h
  · simp [concatContents_append, concatContents_singleton]
  · have hnil : st.batchLog = [] := List.length_eq_zero.mp (by omega)
    rw [hnil]
    simp

theorem scanBurst_total (w : FileWatcher) (fp : String) (file : List Char) (k : Nat)
    (hcr : '\r' ∉ file)
    (hgap : ∀ i, i < file.length → k ≤ i →
      ∃ j, j < file.length ∧ i ≤ j ∧ j < i + CHUNK ∧ file.getD j ' ' = '\n')
    (hnm : ∀ j, j < file.length → ∀ c, c ≤ j → file.getD j ' ' = '\n' →
      (∀ t, t < j → c ≤ t → file.getD t ' ' ≠ '\n') →
      seg file c j ≠ w.completeMarker.data) :
    ∀ (fuel : Nat) (st : WatchState), BurstInv file k st →
      file.length - st.consumed < fuel →
      BurstInv file k (scanBurst w fp file fuel st) ∧
      (scanBurst w fp file fuel st).consumed = file.length := by
  intro fuel
  induction fuel with
  | zero => intro st hinv hlt; omega
  | succ fuel ih =>
    intro st hinv hlt
    rw [scanBurst_succ_active w fp file fuel st hinv.hdone]
    by_cases hend : st.consumed = file.length
    · have hfp : st.filePos = file.length :=
        le_antisymm hinv.hfn (hend ▸ hinv.hcf)
      have hstep : scanStep file st.consumed st.filePos = none := by
        rw [hfp]
        rw [hend]
        exact scanStep_at_end file _ rfl
      rw [hstep]
      exact ⟨hinv, hend⟩
    · have hcns : st.consumed < file.length := lt_of_le_of_ne hinv.hcn hend
      have hex : ∃ j, file.getD j ' ' = '\n' ∧ st.consumed ≤ j ∧ j < file.length := by
        obtain ⟨j, hj1, hj2, hj3, hj4⟩ := hgap st.consumed hcns hinv.hk
        exact ⟨j, hj4, hj2, hj1⟩
      obtain ⟨hm_nl, hm_ge, hm_lt⟩ := Nat.find_spec hex
      have hm_min : ∀ t, st.consumed ≤ t → t < Nat.find hex → file.getD t ' ' ≠ '\n' := by
        intro t ht1 ht2 hcon
        exact Nat.find_min hex ht2 ⟨hcon, ht1, by omega⟩
      have hm_chunk : Nat.find hex < st.consumed + CHUNK := by
        obtain ⟨j, hj1, hj2, hj3, hj4⟩ := hgap st.consumed hcns hinv.hk
        have := Nat.find_min' hex ⟨hj4, hj2, hj1⟩
        omega
      obtain ⟨p, hstep, hmp, hpn⟩ :=
        scanStep_finds file st.consumed st.filePos (Nat.find hex) hm_nl hm_ge hm_lt
          hm_chunk hinv.hcf hinv.hfn hm_min
      rw [hstep]
      have hcr_seg : dropCR (seg file st.consumed (Nat.find hex))
          = seg file st.consumed (Nat.find hex) :=
        dropCR_of_not_mem _ (fun hmem => hcr (mem_of_mem_seg hmem))
      have hline_ne : dropCR (seg file st.consumed (Nat.find hex)) ≠ w.completeMarker.data := by
        rw [hcr_seg]
        exact hnm (Nat.find hex) hm_lt st.consumed hm_ge hm_nl
          (fun t ht1 ht2 => hm_min t ht2 ht1)
      have hsn : seg file st.consumed (Nat.find hex) ++ [file.getD (Nat.find hex) ' ']
          = seg file st.consumed (Nat.find hex + 1) :=
        seg_snoc file st.consumed (Nat.find hex) hm_ge hm_lt
      rw [hm_nl] at hsn
      refine ih _ ⟨?_, ?_, ?_, ?_, ?_, ?_⟩ ?_
      · rw [processLine_consumed]
        show k ≤ Nat.find hex + 1
        have := hinv.hk
        omega
      · rw [processLine_consumed]
        show Nat.find hex + 1 ≤ file.length
        omega
      · rw [processLine_consumed, processLine_filePos]
        show Nat.find hex + 1 ≤ p
        omega
      · rw [processLine_filePos]
        show p ≤ file.length
        exact hpn
      · rw [processLine_done_of_ne _ _ _ _ hline_ne]
        exact hinv.hdone
      · rw [processLine_consumed]
        rw [processLine_delivered]
        show concatContents st.sent ++ st.batchLog ++ dropCR (seg file st.consumed (Nat.find hex)) ++ ['\n']
          = seg file k (Nat.find hex + 1)
        rw [hcr_seg]
        rw [hinv.hdel]
        rw [List.append_assoc]
        rw [hsn]
        exact seg_glue file k st.consumed (Nat.find hex + 1) hinv.hk (by omega) hinv.hcn
      · rw [processLine_consumed]
        show file.length - (Nat.find hex + 1) < fuel
        omega

theorem harvestOnce_delivers (w : FileWatcher) (fp : String) (file : List Char) (k : Nat)
    (hk : k ≤ file.length)
    (hcr : '\r' ∉ file)
    (hgap : ∀ i, i < file.length → k ≤ i →
      ∃ j, j < file.length ∧ i ≤ j ∧ j < i + CHUNK ∧ file.getD j ' ' = '\n')
    (hnm : ∀ j, j < file.length → ∀ c, c ≤ j → file.getD j ' ' = '\n' →
      (∀ t, t < j → c ≤ t → file.getD t ' ' ≠ '\n') →
      seg file c j ≠ w.completeMarker.data) :
    deliveredContent (harvestOnce w fp file k) = file.drop k := by
  have hinit : BurstInv file k (initState k) := by
    refine ⟨le_rfl, hk, le_rfl, hk, rfl, ?_⟩
    show concatContents [] ++ [] = seg file k k
    rw [seg_nil]
    rfl
  obtain ⟨hinv2, hc2⟩ := scanBurst_total w fp file k hcr hgap hnm
    (file.length + 1) (initState k) hinit (by simp [initState]; omega)
  show deliveredContent
      (if (scanBurst w fp file (file.length + 1) (initState k)).done = true
       then scanBurst w fp file (file.length + 1) (initState k)
       else (sendTick w fp false (scanBurst w fp file (file.length + 1) (initState k))).1)
    = List.drop k file
  rw [hinv2.hdone]
  rw [if_neg Bool.false_ne_true]
  unfold deliveredContent
  rw [sendTick_sent]
  rw [hinv2.hdel]
  rw [hc2]
  unfold seg
  rw [List.take_length]

/-! ## Claim theorems -/

/-- C1: the claim states that the offset persisted at each flush equals
the end position of the last line already placed on `ResChan`. The code
persists `f.Seek(0, io.SeekCurrent)`, which is the position past the
scanner's buffered read-ahead: on the 15-byte file `"LOG_COMPLETE\nZ\n"`
the sentinel flush delivers content ending at byte 13 but persists
offset 15 — the cursor is ahead of what was delivered. -/
theorem cursor_saved_ahead_of_delivery :
    (scanBurst NewWatcher aLogPath markerThenMore 16 (initState 0)).saves = [15]
  ∧ deliveredContent (scanBurst NewWatcher aLogPath markerThenMore 16 (initState 0))
      = markerThenMore.take 13
  ∧ markerThenMore.length = 15 := by decide

/-- C2 (counterexample): the claim says a harvest resumed at persisted
offset `k` delivers exactly the bytes from `k` to the end. On the file
`"ab"` (no final newline) with persisted cursor `0` the scanner's final
token gets a newline appended, so `"ab\n"` is delivered, not `"ab"`. -/
theorem resume_not_exact_bytes :
    deliveredContent
        (harvestOnce NewWatcher aLogPath ('a' :: 'b' :: []) (readCursor (some ("0".data))))
      ≠ ('a' :: 'b' :: []) := by decide

/-- C2 (amended): a harvest task resumed at persisted cursor offset `k`
seeks to `k` and delivers exactly the bytes from `k` to the end of the
file — provided the content is newline-terminated LF text (no `'\r'`, a
`'\n'` within each 4096-byte stretch, final byte `'\n'`) and no line
equals the completion marker; in particular no byte before `k` is ever
delivered. -/
theorem resume_delivers_suffix (w : FileWatcher) (fp : String) (file : List Char)
    (cursorData : Option (List Char)) (k : Nat)
    (hread : readCursor cursorData = k)
    (hk : k ≤ file.length)
    (hcr : '\r' ∉ file)
    (hgap : ∀ i, i < file.length → k ≤ i →
      ∃ j, j < file.length ∧ i ≤ j ∧ j < i + CHUNK ∧ file.getD j ' ' = '\n')
    (hnm : ∀ j, j < file.length → ∀ c, c ≤ j → file.getD j ' ' = '\n' →
      (∀ t, t < j → c ≤ t → file.getD t ' ' ≠ '\n') →
      seg file c j ≠ w.completeMarker.data) :
    deliveredContent (harvestOnce w fp file (readCursor cursorData)) = file.drop k := by
  rw [hread]
  exact harvestOnce_delivers w fp file k hk hcr hgap hnm

/-- C2 witness: resuming `"a\nb\n"` at persisted cursor `2` delivers
exactly `"b\n"`. -/
theorem resume_delivers_suffix_witness :
    deliveredContent (harvestOnce NewWatcher aLogPath twoLineFile (readCursor (some ("2".data))))
      = twoLineFile.drop 2 :=
  resume_delivers_suffix NewWatcher aLogPath twoLineFile (some ("2".data)) 2
    (by decide) (by decide) (by decide)
    (fun i h1 h2 =>
      ⟨3, by decide,
        by
          have h4 : twoLineFile.length = 4 := rfl
          omega,
        by
          have hC : CHUNK = 4096 := rfl
          omega,
        by decide⟩)
    (fun j hj c hc hnl hmin heq => by
      have hlen := congrArg List.length heq
      unfold seg at hlen
      rw [List.length_drop, List.length_take] at hlen
      have h4 : twoLineFile.length = 4 := rfl
      have h12 : NewWatcher.completeMarker.data.length = 12 := rfl
      omega)

/-- C3: the claim requires the post-completion deletion to happen only
when the delete-after-complete flag is set (default false). The code
never reads `removeAfterComplete`: with the default configuration
(`removeAfterComplete = false`) reading the sentinel still removes both
the harvested file and the cursor file and ends the task. -/
theorem complete_removes_despite_unset_flag :
    NewWatcher.removeAfterComplete = false
  ∧ (scanBurst NewWatcher aLogPath markerOnly 2 (initState 0)).removedFile = true
  ∧ (scanBurst NewWatcher aLogPath markerOnly 2 (initState 0)).removedCursor = true
  ∧ (scanBurst NewWatcher aLogPath markerOnly 2 (initState 0)).done = true := by decide

/-- C4 (counterexample): the claim says every `Scan` call after the first
is a no-op and no second harvest task is ever spawned for a path with an
active one. A second `Scan` over the same tree changes the state again
and leaves two active tasks for `logs/a.log`. -/
theorem scan_second_call_not_noop :
    runScan exampleMatch exampleEntries (runScan exampleMatch exampleEntries ⟨1, []⟩)
      ≠ runScan exampleMatch exampleEntries ⟨1, []⟩
  ∧ (runScan exampleMatch exampleEntries
        (runScan exampleMatch exampleEntries ⟨1, []⟩)).activeTasks.count aLogPath = 2 := by
  decide

/-- C4 (amended): `Scan` has no idempotence guard and no per-path
duplicate suppression: every call re-walks the tree and spawns a fresh
`Watch` for every matching file, so after two calls any path spawned by
the walk has at least two active harvest tasks. Only `Start` itself is
single-flighted (via the `watching` flag). -/
theorem scan_respawns_active_path (re : String → Bool) (entries : List FileInfo)
    (s : MonitorState) (p : String) (hp : p ∈ scanSpawns re entries) :
    2 ≤ ((runScan re entries (runScan re entries s)).activeTasks.count p) := by
  have h1 : 0 < (scanSpawns re entries).count p := List.count_pos_iff.mpr hp
  show 2 ≤ ((s.activeTasks ++ scanSpawns re entries) ++ scanSpawns re entries).count p
  rw [List.count_append, List.count_append]
  omega

/-- C4 witness: two scans of the example tree leave (at least) two tasks
for `logs/a.log`. -/
theorem scan_respawns_active_path_witness :
    2 ≤ ((runScan exampleMatch exampleEntries
        (runScan exampleMatch exampleEntries ⟨0, []⟩)).activeTasks.count aLogPath) :=
  scan_respawns_active_path exampleMatch exampleEntries ⟨0, []⟩ aLogPath (by decide)

/-- C5 (counterexample): the claim says `saveCursor` truncates the cursor
file so that afterwards its entire content is the decimal offset. The
file is opened without `O_TRUNC` and `saveCursor` only overwrites from
position 0: over prior content `"9999"`, writing offset `5` yields
`"5999"`, not `"5"`. -/
theorem saveCursor_stale_tail :
    saveCursor ("9999".data) 5 ≠ decimalRepr 5 := by decide

/-- C5 (amended): `saveCursor` seeks to the start and overwrites without
truncating; the cursor file's content afterwards is exactly the decimal
representation of the offset precisely when the prior content is no
longer than that representation (which holds for every cursor file the
watcher itself wrote, since offsets never shrink within a run). -/
theorem saveCursor_writes_decimal (prior : List Char) (offset : Nat)
    (h : prior.length ≤ (decimalRepr offset).length) :
    saveCursor prior offset = decimalRepr offset := by
  unfold saveCursor
  rw [List.drop_eq_nil_of_le h, List.append_nil]

/-- C5 witness: overwriting prior content `"12"` with offset `34` leaves
exactly `"34"`. -/
theorem saveCursor_writes_decimal_witness :
    saveCursor ("12".data) 34 = decimalRepr 34 :=
  saveCursor_writes_decimal ("12".data) 34 (by decide)

/-- C6: a scanned line equal to the configured completion marker makes
the current batch (including that line) flush at once with the record's
end-of-stream flag `true`, whatever the batch count is, and the harvest
task then terminates: any further scan burst leaves the state unchanged. -/
theorem sentinel_flushes_and_terminates (w : FileWatcher) (fp : String)
    (st : WatchState) (line : List Char) (h : line = w.completeMarker.data) :
    (processLine w fp st line).sent
        = st.sent ++ [⟨fp, st.batchLog ++ line ++ ['\n'], true⟩]
  ∧ (processLine w fp st line).done = true
  ∧ (processLine w fp st line).batchLog = []
  ∧ ∀ (file : List Char) (fuel : Nat),
      scanBurst w fp file fuel (processLine w fp st line) = processLine w fp st line := by
  have hpl : processLine w fp st line
      = { st with sent := st.sent ++ [⟨fp, st.batchLog ++ line ++ ['\n'], true⟩]
                  batchLog := [], batchCnt := 0, offset := st.filePos
                  saves := st.saves ++ [st.filePos]
                  removedFile := true, removedCursor := true, done := true } := by
    unfold processLine
    rw [if_pos h]
  refine ⟨?_, ?_, ?_, ?_⟩
  · rw [hpl]
  · rw [hpl]
  · rw [hpl]
  · intro file fuel
    exact scanBurst_done w fp file fuel _ (by rw [hpl])

/-- C6 witness: the default marker, scanned into a fresh task, is flushed
alone with `EOF = true` and the task is finished. -/
theorem sentinel_flushes_and_terminates_witness :
    (processLine NewWatcher aLogPath (initState 0) markerLine).sent
        = (initState 0).sent
            ++ [⟨aLogPath, (initState 0).batchLog ++ markerLine ++ ['\n'], true⟩]
  ∧ (processLine NewWatcher aLogPath (initState 0) markerLine).done = true
  ∧ (processLine NewWatcher aLogPath (initState 0) markerLine).batchLog = []
  ∧ ∀ (file : List Char) (fuel : Nat),
      scanBurst NewWatcher aLogPath file fuel
          (processLine NewWatcher aLogPath (initState 0) markerLine)
        = processLine NewWatcher aLogPath (initState 0) markerLine :=
  sentinel_flushes_and_terminates NewWatcher aLogPath (initState 0) markerLine (by decide)

/-- C7 (counterexample): the claim says that on a stall timeout the task
first flushes any pending partial batch and then terminates. Receiving
the stall signal (`false` on `scanChan`) with a pending batch returns at
once with nothing sent: the pending batch is not flushed. -/
theorem stall_signal_drops_pending_batch :
    pendingBatchState.batchLog ≠ []
  ∧ scanSignal NewWatcher aLogPath [] 1 false pendingBatchState = (pendingBatchState, true)
  ∧ (scanSignal NewWatcher aLogPath [] 1 false pendingBatchState).1.sent = [] := by decide

/-- C7 (amended): the stall timer is indeed reset on every write
notification, and the stall signal ends the harvest loop as a normal
(non-error) return — but immediately, without flushing: pending batches
are flushed only by the independent 2-second send-timer tick, which
flushes any non-empty batch. -/
theorem stall_reset_and_immediate_exit :
    (∀ (ev : FsEvent) (chanLen : Nat), ev.isWrite = true →
        FEAction.resetTimer ∈ watchFileEventStep ev chanLen)
  ∧ (∀ (w : FileWatcher) (fp : String) (file : List Char) (fuel : Nat) (st : WatchState),
        scanSignal w fp file fuel false st = (st, true))
  ∧ (∀ (w : FileWatcher) (fp : String) (b : Bool) (st : WatchState),
        st.batchLog ≠ [] →
          (sendTick w fp b st).1.batchLog = []
          ∧ (sendTick w fp b st).1.sent = st.sent ++ [⟨fp, st.batchLog, false⟩]) := by
  refine ⟨?_, ?_, ?_⟩
  · intro ev chanLen hw
    simp [watchFileEventStep, hw]
  · intro w fp file fuel st
    unfold scanSignal
    rw [if_pos rfl]
  · intro w fp b st hne
    unfold sendTick
    dsimp only
    rw [if_pos (List.length_pos.mpr hne)]
    exact ⟨rfl, rfl⟩

/-- C7 witness: a write event resets the timer; the stall signal returns
the state unchanged; a tick flushes the pending batch. -/
theorem stall_reset_and_immediate_exit_witness :
    FEAction.resetTimer ∈ watchFileEventStep ⟨aLogPath, false, true, false⟩ 0
  ∧ scanSignal NewWatcher aLogPath [] 1 false (initState 0) = (initState 0, true)
  ∧ ((sendTick NewWatcher aLogPath false pendingBatchState).1.batchLog = []
      ∧ (sendTick NewWatcher aLogPath false pendingBatchState).1.sent
          = pendingBatchState.sent ++ [⟨aLogPath, pendingBatchState.batchLog, false⟩]) :=
  ⟨stall_reset_and_immediate_exit.1 ⟨aLogPath, false, true, false⟩ 0 rfl,
   stall_reset_and_immediate_exit.2.1 NewWatcher aLogPath [] 1 (initState 0),
   stall_reset_and_immediate_exit.2.2 NewWatcher aLogPath false pendingBatchState (by decide)⟩

/-- C8: no path failing the configured pattern and no `.cursor` path is
ever dispatched to a harvest task, neither by the `Scan` walk nor by the
create-event handling of `Start`'s loop. -/
theorem dispatch_requires_pattern_match (re : String → Bool) :
    (∀ (entries : List FileInfo) (p : String),
        p ∈ scanSpawns re entries →
          re p = true ∧ hasSuffix p CursorFileSuffix = false)
  ∧ (∀ (ev : FsEvent) (d : Option Bool) (p : String),
        StartEffect.spawnWatch p ∈ startHandleEvent re ev d →
          re p = true ∧ hasSuffix p CursorFileSuffix = false) := by
  constructor
  · intro entries p hp
    rw [scanSpawns, List.mem_filterMap] at hp
    obtain ⟨e, _, hfe⟩ := hp
    split_ifs at hfe with h1 h2 h3 <;>
      first
        | exact Option.noConfusion hfe
        | (injection hfe with hep
           subst hep
           exact ⟨h3, by simpa using h1⟩)
  · intro ev d p hp
    unfold startHandleEvent at hp
    by_cases h1 : hasSuffix ev.name CursorFileSuffix = true
    · rw [if_pos h1] at hp
      simp at hp
    · rw [if_neg h1] at hp
      by_cases h2 : ev.isCreate = true
      · rw [if_pos h2] at hp
        match d with
        | none => simp at hp
        | some true => simp at hp
        | some false =>
          dsimp only at hp
          by_cases h3 : re ev.name = true
          · rw [if_pos h3] at hp
            have hep : p = ev.name := by
              simpa using hp
            subst hep
            exact ⟨h3, by simpa using h1⟩
          · rw [if_neg h3] at hp
            simp at hp
      · rw [if_neg h2] at hp
        simp at hp

/-- C8 witness: the example walk dispatches `logs/a.log`, which matches
the pattern and is not a cursor file. -/
theorem dispatch_requires_pattern_match_witness :
    exampleMatch aLogPath = true ∧ hasSuffix aLogPath CursorFileSuffix = false :=
  (dispatch_requires_pattern_match exampleMatch).1 exampleEntries aLogPath (by decide)

/-- C9: the claim says a `FileContent` record is immutable once sent. The
record carries `batchLog.Bytes()`, a slice into the buffer's backing
array, which `Reset` retains: after the next batch is written, reading
the first record's slice yields different bytes than at send time. -/
theorem flushed_record_content_mutates :
    readSlice flushOneBuf.arr recordOneLen = batchOne
  ∧ readSlice flushTwoBuf.arr recordOneLen ≠ batchOne := by decide

/-- C10: every `Start` call that wins the single-flight CAS launches
exactly one `Scan` first — before the watcher setup and before the event
loop — and the event loop, when reached, comes after it. -/
theorem start_launches_scan_before_loop (newWatcherOk addWalkOk : Bool) :
    ∃ rest, startTrace 0 newWatcherOk addWalkOk = StartStep.launchScan :: rest
      ∧ StartStep.launchScan ∉ rest
      ∧ (addWalkOk = true → newWatcherOk = true → StartStep.eventLoop ∈ rest) := by
  cases newWatcherOk <;> cases addWalkOk
  · exact ⟨[], by decide, by decide, by decide⟩
  · exact ⟨[], by decide, by decide, by decide⟩
  · exact ⟨[StartStep.addWatches], by decide, by decide, by decide⟩
  · exact ⟨[StartStep.addWatches, StartStep.eventLoop], by decide, by decide, by decide⟩

/-- C10 witness: with a healthy setup the trace is the scan launch
followed by watcher setup and the event loop. -/
theorem start_launches_scan_before_loop_witness :
    ∃ rest, startTrace 0 true true = StartStep.launchScan :: rest
      ∧ StartStep.launchScan ∉ rest
      ∧ (true = true → true = true → StartStep.eventLoop ∈ rest) :=
  start_launches_scan_before_loop true true

end Filewatch
